import Mathlib

/-!
The terminal output coordinator `utils.Progress` of aptly.

A shallow embedding of `src/utils/progress.go`.

* `printTask`, `Progress`, `NewProgress` and the handle methods `Printf`, `InitBar`, `Write`,
  `AddBar`, `ShutdownBar` are translated method by method.
* `Progress.handleTask` is the body of the `case task := <-p.queue` arm of `worker`
  (the `switch task.code`); `Progress.drain` runs it over a list of received tasks.
* `sysStep` is the step relation of the whole coordinator: producer calls, the bar's refresh
  ticks, `Start`, the two arms of the worker's `select`, and the three stages of `Shutdown`.

Channels: `queue` is the buffered channel (capacity `queueCap`), represented by the list of
tasks it currently holds, oldest first; a send appends at the tail and a receive takes the head.
`stop` and `stopped` are unbuffered, represented by the value a blocked sender is offering.
Standard output is the string of everything printed so far.
-/

namespace Aptly

/-! ## Data model -/

/-- The constant `codePrint = iota`. -/
def codePrint : Int := 0

/-- The constant `codeProgress`. -/
def codeProgress : Int := 1

/-- The constant `codeHideProgress`. -/
def codeHideProgress : Int := 2

/-- The struct `printTask`. -/
structure printTask where
  code : Int
  message : String
deriving DecidableEq, Repr

/-- Unit kinds of the progress-bar library (`pb.U_NO`, `pb.U_BYTES`). -/
inductive pbUnits where
  | U_NO
  | U_BYTES
deriving DecidableEq, Repr

/-- Modelled from the spec: the bar of the third-party library `github.com/cheggaaa/pb`, whose
source is not part of the repository. It "holds a monotonically increasing accumulated-count and
a total"; the remaining fields are the ones `InitBar` assigns. The `Callback` field is not
stored: `InitBar` always installs the same closure, `Callback` below. -/
structure ProgressBar where
  current : Int
  Total : Int
  NotPrint : Bool
  ShowSpeed : Bool
  Units : pbUnits
deriving DecidableEq, Repr

/-- Modelled from the spec: `pb.New(total)`, a bar with nothing accumulated yet. -/
def pbNew (total : Int) : ProgressBar :=
  { current := 0, Total := total, NotPrint := false, ShowSpeed := false, Units := pbUnits.U_NO }

/-- Modelled from the spec: `bar.Add(n)` advances the accumulated count by `n`. -/
def ProgressBar.Add (b : ProgressBar) (n : Int) : ProgressBar :=
  { b with current := b.current + n }

/-- Modelled from the spec: `bar.SetUnits(u)`. -/
def ProgressBar.SetUnits (b : ProgressBar) (u : pbUnits) : ProgressBar :=
  { b with Units := u }

/-- The methods of the bar that `progress.go` calls. -/
inductive PbMethod where
  | Start
  | Add (n : Int)
  | Finish
deriving DecidableEq, Repr

/-- The rendering behaviour of the bar library, which the repository does not contain and which
is therefore a parameter: `rendered m b` lists the frames the library hands to the bar's
`Callback`, in order, while it executes method `m` on bar `b`. Frames rendered by the library's
own refresh goroutine are the `tick` events of `sysStep`. -/
structure PbLib where
  rendered : PbMethod → ProgressBar → List String

/-- A library that renders only from its refresh goroutine. -/
def quietPb : PbLib := { rendered := fun _ _ => [] }

/-- A library whose `Finish` renders one last frame. -/
def finalFramePb : PbLib :=
  { rendered := fun m _ => match m with
      | PbMethod.Finish => ["[==========] 100%"]
      | _ => [] }

/-- The struct `Progress`. `stop` and `stopped` hold the value offered by a sender blocked on
the unbuffered channel, `queue` the content of the buffered channel, `bar` is `none` for
`nil`. -/
structure Progress where
  stop : Option Bool
  stopped : Option Bool
  queue : List printTask
  bar : Option ProgressBar
  barShown : Bool
deriving DecidableEq, Repr

/-- Capacity of the channel `queue` (`make(chan printTask, 100)`). -/
def queueCap : Nat := 100

/-- The function `NewProgress`. -/
def NewProgress : Progress :=
  { stop := none, stopped := none, queue := [], bar := none, barShown := false }

/-- The erase-current-line sequence `"\r\033[2K"` (`\033` is ESC). -/
def eraseLine : String := "\r\x1b[2K"

/-! ## Producer-facing handle -/

/-- A completed send `p.queue <- t`: the task joins the tail of the channel. A send on a full
channel waits for the worker to make room (see `sysStep`). -/
def send (q : List printTask) (t : printTask) : List printTask :=
  q ++ [t]

/-- The closure `InitBar` installs as `p.bar.Callback`:
`func(out string) { p.queue <- printTask{code: codeProgress, message: out} }`. -/
def Callback (q : List printTask) (out : String) : List printTask :=
  send q { code := codeProgress, message := out }

/-- The library invoking `Callback` on each frame it renders during one method call. -/
def runCallbacks (q : List printTask) (frames : List String) : List printTask :=
  frames.foldl Callback q

/-- The method `Printf`; `text` is the value of `fmt.Sprintf(msg, a...)`. -/
def Progress.Printf (text : String) (p : Progress) : Progress :=
  { p with queue := send p.queue { code := codePrint, message := text } }

/-- The method `InitBar`; `isTerminal` is the value of `terminal.IsTerminal(syscall.Stdout)`.
`Except.error` is a panic. -/
def Progress.InitBar (lib : PbLib) (isTerminal : Bool) (count : Int) (isBytes : Bool)
    (p : Progress) : Except String Progress :=
  if p.bar.isSome then
    Except.error "bar already initialized"
  else if isTerminal then
    let bar := pbNew 0
    let bar := { bar with Total := count }
    let bar := { bar with NotPrint := true }
    let bar := if isBytes then { bar.SetUnits pbUnits.U_BYTES with ShowSpeed := true } else bar
    Except.ok { p with
      bar := some bar
      barShown := false
      queue := runCallbacks p.queue (lib.rendered PbMethod.Start bar) }
  else
    Except.ok p

/-- The method `ShutdownBar`. -/
def Progress.ShutdownBar (lib : PbLib) (p : Progress) : Progress :=
  match p.bar with
  | none => p
  | some bar =>
    { p with
      bar := none
      queue := send (runCallbacks p.queue (lib.rendered PbMethod.Finish bar))
        { code := codeHideProgress, message := "" } }

/-- The method `Write`: returns `(len(s), nil)` and the handle afterwards. -/
def Progress.Write (lib : PbLib) (s : List UInt8) (p : Progress) :
    (Int × Option String) × Progress :=
  match p.bar with
  | some bar =>
    (((s.length : Int), none),
      { p with
        bar := some (bar.Add s.length)
        queue := runCallbacks p.queue (lib.rendered (PbMethod.Add s.length) bar) })
  | none => (((s.length : Int), none), p)

/-- The method `AddBar`. -/
def Progress.AddBar (lib : PbLib) (count : Int) (p : Progress) : Progress :=
  match p.bar with
  | some bar =>
    { p with
      bar := some (bar.Add count)
      queue := runCallbacks p.queue (lib.rendered (PbMethod.Add count) bar) }
  | none => p

/-- One call on the handle by a producer. -/
inductive Call where
  | Printf (text : String)
  | InitBar (count : Int) (isBytes : Bool)
  | Write (s : List UInt8)
  | AddBar (count : Int)
  | ShutdownBar
deriving DecidableEq, Repr

/-- The handle after one call; `Except.error` when the call panics. -/
def applyCall (lib : PbLib) (isTerminal : Bool) (c : Call) (p : Progress) :
    Except String Progress :=
  match c with
  | Call.Printf text => Except.ok (p.Printf text)
  | Call.InitBar count isBytes => p.InitBar lib isTerminal count isBytes
  | Call.Write s => Except.ok (p.Write lib s).2
  | Call.AddBar count => Except.ok (p.AddBar lib count)
  | Call.ShutdownBar => Except.ok (p.ShutdownBar lib)

/-- A sequence of calls, one after the other; stops at the first panic. -/
def runCalls (lib : PbLib) (isTerminal : Bool) : List Call → Progress → Except String Progress
  | [], p => Except.ok p
  | c :: cs, p =>
    match applyCall lib isTerminal c p with
    | Except.ok p1 => runCalls lib isTerminal cs p1
    | Except.error msg => Except.error msg

/-- The texts of the `Printf` calls of a sequence, in call order. -/
def printfTexts : List Call → List String
  | [] => []
  | Call.Printf text :: cs => text :: printfTexts cs
  | _ :: cs => printfTexts cs

/-! ## Worker -/

/-- The arm `case task := <-p.queue` of `worker`, after the receive: the `switch task.code`.
Returns the handle afterwards and what the arm printed to standard output. A code outside the
three constants matches no case. -/
def Progress.handleTask (task : printTask) (p : Progress) : Progress × String :=
  if task.code = codePrint then
    if p.barShown then
      ({ p with barShown := false }, eraseLine ++ task.message)
    else
      (p, task.message)
  else if task.code = codeProgress then
    ({ p with barShown := true }, "\r" ++ task.message)
  else if task.code = codeHideProgress then
    if p.barShown then
      ({ p with barShown := false }, eraseLine)
    else
      (p, "")
  else
    (p, "")

/-- The worker taking the given tasks off the queue one after the other: the handle afterwards
and everything printed. -/
def Progress.drain : List printTask → Progress → Progress × String
  | [], p => (p, "")
  | t :: ts, p =>
    let r := p.handleTask t
    let rest := Progress.drain ts r.1
    (rest.1, r.2 ++ rest.2)

/-- The text a task carries to the terminal: the message of a print or progress task; a hide
task (or a task with an unknown code) carries none. -/
def taskText (t : printTask) : String :=
  if t.code = codePrint ∨ t.code = codeProgress then t.message else ""

/-! ## The coordinator as a transition system -/

/-- Where the goroutine running `worker` stands. `selecting`: blocked in (or about to enter) the
`select`; `signalling`: it took the `<-p.stop` arm and is in `p.stopped <- true`. -/
inductive WorkerPhase where
  | notStarted
  | selecting
  | signalling
  | exited
deriving DecidableEq, Repr

/-- Where the (single) caller of `Shutdown` stands. `stopping`: `ShutdownBar` has returned and
the caller is in `p.stop <- true` or in `<-p.stopped`. -/
inductive CallerPhase where
  | active
  | stopping
  | returned
deriving DecidableEq, Repr

/-- The handle together with standard output and the control points of the worker and of the
caller of `Shutdown`. -/
structure System where
  p : Progress
  stdout : String
  worker : WorkerPhase
  caller : CallerPhase
deriving DecidableEq, Repr

/-- A fresh handle, nothing printed, `Start` not yet called. -/
def System.fresh : System :=
  { p := NewProgress, stdout := "", worker := WorkerPhase.notStarted,
    caller := CallerPhase.active }

/-- The atomic steps of the coordinator. -/
inductive Event where
  /-- `Start()`: `go p.worker()`. -/
  | start
  /-- A producer call that runs to completion. -/
  | call (c : Call)
  /-- The refresh goroutine of the active bar renders a frame and invokes `Callback(out)`. -/
  | tick (out : String)
  /-- `Shutdown()` up to its send: `p.ShutdownBar()`, then it offers `true` on `stop`. -/
  | shutdownCall
  /-- The worker's `select` takes the arm `case task := <-p.queue` and runs the switch. -/
  | workerTask
  /-- The worker's `select` takes the arm `case <-p.stop` and starts `p.stopped <- true`. -/
  | workerStop
  /-- `Shutdown` receives from `stopped` and returns; the worker returns. -/
  | shutdownDone
deriving DecidableEq, Repr

/-- One step of the coordinator; `none` when the step cannot happen in this state: the goroutine
is not at that point, the channel operation would block (receive from an empty queue, send to a
full one, no partner on an unbuffered channel), or the call panics and the process dies. Go's
`select` chooses among its ready arms at random, so `workerTask` and `workerStop` are both
possible whenever the queue is non-empty and a stop is on offer. -/
def sysStep (lib : PbLib) (isTerminal : Bool) (e : Event) (s : System) : Option System :=
  match e with
  | Event.start =>
    if s.worker = WorkerPhase.notStarted then
      some { s with worker := WorkerPhase.selecting }
    else none
  | Event.call c =>
    match applyCall lib isTerminal c s.p with
    | Except.ok p1 => if p1.queue.length ≤ queueCap then some { s with p := p1 } else none
    | Except.error _ => none
  | Event.tick out =>
    if s.p.bar.isSome ∧ s.p.queue.length < queueCap then
      some { s with p := { s.p with queue := Callback s.p.queue out } }
    else none
  | Event.shutdownCall =>
    let p1 := s.p.ShutdownBar lib
    if s.caller = CallerPhase.active ∧ p1.queue.length ≤ queueCap then
      some { s with p := { p1 with stop := some true }, caller := CallerPhase.stopping }
    else none
  | Event.workerTask =>
    if s.worker = WorkerPhase.selecting then
      match s.p.queue with
      | [] => none
      | task :: rest =>
        let r := Progress.handleTask task { s.p with queue := rest }
        some { s with p := r.1, stdout := s.stdout ++ r.2 }
    else none
  | Event.workerStop =>
    if s.worker = WorkerPhase.selecting ∧ s.p.stop.isSome then
      some { s with
        p := { s.p with stop := none, stopped := some true }
        worker := WorkerPhase.signalling }
    else none
  | Event.shutdownDone =>
    if s.caller = CallerPhase.stopping ∧ s.p.stop = none ∧ s.p.stopped.isSome then
      some { s with
        p := { s.p with stopped := none }
        worker := WorkerPhase.exited
        caller := CallerPhase.returned }
    else none

/-- A schedule: the steps taken one after the other; `none` as soon as one cannot happen. -/
def sysRun (lib : PbLib) (isTerminal : Bool) : List Event → System → Option System
  | [], s => some s
  | e :: es, s =>
    match sysStep lib isTerminal e s with
    | some s1 => sysRun lib isTerminal es s1
    | none => none

/-- The texts of the `Printf` calls of a schedule, in call order. -/
def printfTextsOf : List Event → List String
  | [] => []
  | Event.call (Call.Printf text) :: es => text :: printfTextsOf es
  | _ :: es => printfTextsOf es

/-- Concatenation of a list of texts, in order. -/
def concatAll : List String → String
  | [] => ""
  | t :: ts => t ++ concatAll ts

/-- What the worker prints in front of a task's text when the bar flag is `shown`: the erase
sequence before a print (or for a hide) over a shown bar, a carriage return before a frame. -/
def lead (shown : Bool) (t : printTask) : String :=
  if t.code = codeProgress then "\r"
  else if (t.code = codePrint ∨ t.code = codeHideProgress) ∧ shown = true then eraseLine
  else ""

/-- The bar flag after the worker handled a task. -/
def shownAfter (shown : Bool) (t : printTask) : Bool :=
  if t.code = codeProgress then true
  else if t.code = codePrint ∨ t.code = codeHideProgress then false
  else shown

/-- The leads of a list of tasks handled in order, starting with bar flag `shown`. -/
def leads : Bool → List printTask → List String
  | _, [] => []
  | shown, t :: ts => lead shown t :: leads (shownAfter shown t) ts

/-- The texts still waiting in the queue. -/
def pendingText (s : System) : String :=
  concatAll (s.p.queue.map (fun t => t.message))

/-! ## Basic facts -/

theorem runCallbacks_eq (q : List printTask) (frames : List String) :
    runCallbacks q frames
      = q ++ frames.map (fun out => ({ code := codeProgress, message := out } : printTask)) := by
  induction frames generalizing q with
  | nil => simp [runCallbacks]
  | cons f fs ih =>
    have h := ih (Callback q f)
    simp only [runCallbacks, List.foldl_cons] at h ⊢
    rw [h]
    simp [Callback, send]

theorem handleTask_fst (t : printTask) (p : Progress) :
    (p.handleTask t).1 = { p with barShown := shownAfter p.barShown t } := by
  obtain ⟨stop, stopped, queue, bar, shown⟩ := p
  simp only [Progress.handleTask, shownAfter, codePrint, codeProgress, codeHideProgress]
  by_cases h1 : t.code = 0
  · cases shown <;> simp [h1]
  · by_cases h2 : t.code = 1
    · simp [h2]
    · by_cases h3 : t.code = 2
      · cases shown <;> simp [h3]
      · simp [h1, h2, h3]

theorem handleTask_snd (t : printTask) (p : Progress) :
    (p.handleTask t).2 = lead p.barShown t ++ taskText t := by
  obtain ⟨stop, stopped, queue, bar, shown⟩ := p
  simp only [Progress.handleTask, lead, taskText, codePrint, codeProgress, codeHideProgress]
  by_cases h1 : t.code = 0
  · cases shown <;> simp [h1]
  · by_cases h2 : t.code = 1
    · simp [h2]
    · by_cases h3 : t.code = 2
      · cases shown <;> simp [h3]
      · simp [h1, h2, h3]

theorem drain_append (xs ys : List printTask) (p : Progress) :
    Progress.drain (xs ++ ys) p
      = ((Progress.drain ys (Progress.drain xs p).1).1,
          (Progress.drain xs p).2 ++ (Progress.drain ys (Progress.drain xs p).1).2) := by
  induction xs generalizing p with
  | nil => simp [Progress.drain]
  | cons x xs ih =>
    rw [List.cons_append]
    simp only [Progress.drain]
    rw [ih]
    simp [String.append_assoc]

theorem leads_length (shown : Bool) (ts : List printTask) :
    (leads shown ts).length = ts.length := by
  induction ts generalizing shown with
  | nil => rfl
  | cons t ts ih => simp [leads, ih]

theorem leads_mem (shown : Bool) (ts : List printTask) :
    ∀ l ∈ leads shown ts, l = "" ∨ l = "\r" ∨ l = eraseLine := by
  induction ts generalizing shown with
  | nil => simp [leads]
  | cons t ts ih =>
    intro l hl
    simp only [leads, List.mem_cons] at hl
    rcases hl with hl | hl
    · subst hl
      unfold lead
      split_ifs <;> simp
    · exact ih _ l hl

theorem drain_snd (ts : List printTask) (p : Progress) :
    (Progress.drain ts p).2
      = concatAll (List.zipWith (fun l t => l ++ taskText t) (leads p.barShown ts) ts) := by
  induction ts generalizing p with
  | nil => rfl
  | cons t ts ih =>
    simp only [Progress.drain, leads, List.zipWith_cons_cons, concatAll]
    rw [ih, handleTask_snd, handleTask_fst]

theorem drain_fst (ts : List printTask) (p : Progress) :
    (Progress.drain ts p).1 = { p with barShown := (Progress.drain ts p).1.barShown } := by
  induction ts generalizing p with
  | nil => rfl
  | cons t ts ih =>
    simp only [Progress.drain]
    rw [ih, handleTask_fst]

/-- The worker's loop taking `xs.length` times the queue arm of its `select` is `drain xs`. -/
theorem sysRun_workerTasks (lib : PbLib) (isTerminal : Bool) (xs rest : List printTask)
    (p : Progress) (out : String) (c : CallerPhase) :
    sysRun lib isTerminal (List.replicate xs.length Event.workerTask)
        { p := { p with queue := xs ++ rest }, stdout := out,
          worker := WorkerPhase.selecting, caller := c }
      = some { p := { (Progress.drain xs p).1 with queue := rest },
               stdout := out ++ (Progress.drain xs p).2,
               worker := WorkerPhase.selecting, caller := c } := by
  induction xs generalizing p out with
  | nil => simp [sysRun, Progress.drain]
  | cons x xs ih =>
    simp only [List.length_cons, List.replicate_succ, sysRun, sysStep, List.cons_append,
      if_true, Progress.drain]
    rw [handleTask_fst, handleTask_snd]
    have h := ih { p with barShown := shownAfter p.barShown x } (out ++ (lead p.barShown x ++ taskText x))
    simp only [] at h
    rw [h, handleTask_fst, handleTask_snd, String.append_assoc]

/-! ## The worker's handling of one task -/

/-- C5: for every text and every coordinator state, the worker handling a Print task prints
the erase sequence followed by the text when `barShown` is true and exactly the text when it
is false; `barShown` is false afterwards and nothing else of the handle changes. The second
part says the same of the `select` arm in the step relation: the printed text is appended to
standard output and the task leaves the queue. -/
theorem C5_print_task (text : String) (p : Progress) :
    p.handleTask { code := codePrint, message := text }
        = ({ p with barShown := false }, if p.barShown then eraseLine ++ text else text)
    ∧ ∀ (lib : PbLib) (isTerminal : Bool) (rest : List printTask) (out : String)
        (c : CallerPhase),
        sysStep lib isTerminal Event.workerTask
            { p := { p with queue := { code := codePrint, message := text } :: rest },
              stdout := out, worker := WorkerPhase.selecting, caller := c }
          = some { p := { p with queue := rest, barShown := false },
                   stdout := out ++ (if p.barShown then eraseLine ++ text else text),
                   worker := WorkerPhase.selecting, caller := c } := by
  obtain ⟨stop, stopped, queue, bar, shown⟩ := p
  constructor
  · cases shown <;> simp [Progress.handleTask]
  · intro lib isTerminal rest out c
    cases shown <;> simp [sysStep, Progress.handleTask]

/-- C6: for every coordinator state, the worker handling a HideProgress task prints exactly
the erase sequence and clears `barShown` when `barShown` is true, and prints nothing and leaves
the state as it is when `barShown` is false; handling two HideProgress tasks in a row prints
the same and ends in the same state as handling one. -/
theorem C6_hide_task (m m2 : String) (p : Progress) :
    p.handleTask { code := codeHideProgress, message := m }
        = ({ p with barShown := false }, if p.barShown then eraseLine else "")
    ∧ ({ p with barShown := false } : Progress).handleTask
          { code := codeHideProgress, message := m }
        = ({ p with barShown := false }, "")
    ∧ Progress.drain [{ code := codeHideProgress, message := m },
          { code := codeHideProgress, message := m2 }] p
        = Progress.drain [{ code := codeHideProgress, message := m }] p := by
  obtain ⟨stop, stopped, queue, bar, shown⟩ := p
  refine ⟨?_, ?_, ?_⟩
  · cases shown <;>
      simp [Progress.handleTask, codePrint, codeProgress, codeHideProgress]
  · simp [Progress.handleTask, codePrint, codeProgress, codeHideProgress]
  · cases shown <;>
      simp [Progress.drain, Progress.handleTask, codePrint, codeProgress, codeHideProgress]

/-- C7: for every frame text and every coordinator state, the worker handling a ProgressFrame
task prints exactly a carriage return followed by the text (no erase sequence, no newline), and
`barShown` is true afterwards; nothing else of the handle changes. The second part says the same
of the `select` arm in the step relation. -/
theorem C7_progress_task (text : String) (p : Progress) :
    p.handleTask { code := codeProgress, message := text }
        = ({ p with barShown := true }, "\r" ++ text)
    ∧ ∀ (lib : PbLib) (isTerminal : Bool) (rest : List printTask) (out : String)
        (c : CallerPhase),
        sysStep lib isTerminal Event.workerTask
            { p := { p with queue := { code := codeProgress, message := text } :: rest },
              stdout := out, worker := WorkerPhase.selecting, caller := c }
          = some { p := { p with queue := rest, barShown := true },
                   stdout := out ++ ("\r" ++ text),
                   worker := WorkerPhase.selecting, caller := c } := by
  obtain ⟨stop, stopped, queue, bar, shown⟩ := p
  constructor
  · simp [Progress.handleTask, codePrint, codeProgress]
  · intro lib isTerminal rest out c
    simp [sysStep, Progress.handleTask, codePrint, codeProgress]

/-! ## The handle's methods -/

/-- C8: for every handle state and every byte slice `s` (the empty one included), `Write`
returns the count `len(s)` and a nil error; when a bar is active its accumulated count advances
by exactly `len(s)` (its other fields stay), and when no bar is active the handle, its queue
included, is left unchanged. -/
theorem C8_write (lib : PbLib) (s : List UInt8) (p : Progress) (bar : ProgressBar) :
    (p.Write lib s).1 = ((s.length : Int), none)
    ∧ (({ p with bar := some bar } : Progress).Write lib s).2.bar
        = some { bar with current := bar.current + (s.length : Int) }
    ∧ ({ p with bar := none } : Progress).Write lib s
        = (((s.length : Int), none), { p with bar := none }) := by
  refine ⟨?_, ?_, ?_⟩
  · unfold Progress.Write
    cases p.bar <;> rfl
  · rfl
  · rfl

/-- C9: for every handle state, `ShutdownBar` without an active bar leaves the handle and the
queue unchanged. With an active bar it clears the bar and sends one HideProgress task, which
ends up at the tail of the queue: the queue afterwards is the queue before, then the frames the
bar library rendered while finishing the bar (none for a library that renders only on its own
ticks), then the HideProgress task; the number of HideProgress tasks in the queue grows by
exactly one. After `ShutdownBar` the bar is absent and a following `InitBar` does not panic.
A second `ShutdownBar` right after the first changes nothing, so two calls enqueue what one
does. -/
theorem C9_shutdownBar (lib : PbLib) (p : Progress) (bar : ProgressBar) (isTerminal : Bool)
    (count : Int) (isBytes : Bool) :
    ({ p with bar := none } : Progress).ShutdownBar lib = { p with bar := none }
    ∧ ({ p with bar := some bar } : Progress).ShutdownBar lib
        = { p with
            bar := none
            queue := p.queue
              ++ (lib.rendered PbMethod.Finish bar).map
                  (fun out => ({ code := codeProgress, message := out } : printTask))
              ++ [{ code := codeHideProgress, message := "" }] }
    ∧ (({ p with bar := some bar } : Progress).ShutdownBar lib).queue.countP
          (fun t => t.code = codeHideProgress)
        = p.queue.countP (fun t => t.code = codeHideProgress) + 1
    ∧ (({ p with bar := some bar } : Progress).ShutdownBar lib).queue.getLast?
        = some { code := codeHideProgress, message := "" }
    ∧ (({ p with bar := some bar } : Progress).ShutdownBar quietPb).queue
        = p.queue ++ [{ code := codeHideProgress, message := "" }]
    ∧ (p.ShutdownBar lib).bar = none
    ∧ (∃ p1, (p.ShutdownBar lib).InitBar lib isTerminal count isBytes = Except.ok p1)
    ∧ (p.ShutdownBar lib).ShutdownBar lib = p.ShutdownBar lib := by
  have hbar : (p.ShutdownBar lib).bar = none := by
    unfold Progress.ShutdownBar
    cases h : p.bar <;> simp [h]
  have hmain : ({ p with bar := some bar } : Progress).ShutdownBar lib
        = { p with
            bar := none
            queue := p.queue
              ++ (lib.rendered PbMethod.Finish bar).map
                  (fun out => ({ code := codeProgress, message := out } : printTask))
              ++ [{ code := codeHideProgress, message := "" }] } := by
    simp [Progress.ShutdownBar, runCallbacks_eq, send]
  refine ⟨rfl, hmain, ?_, ?_, ?_, hbar, ?_, ?_⟩
  · rw [hmain]
    simp [List.countP_append, List.countP_map, codeProgress, codeHideProgress,
      Function.comp_def]
  · rw [hmain]
    simp
  · simp [Progress.ShutdownBar, runCallbacks_eq, send, quietPb]
  · unfold Progress.InitBar
    rw [hbar]
    cases isTerminal <;> simp
  · generalize hq : p.ShutdownBar lib = q at hbar
    unfold Progress.ShutdownBar
    rw [hbar]

/-- C10: the worker prints in exactly the order of the queue. For every coordinator state and
every two task lists `xs` and `ys`, handling `xs ++ ys` prints what handling `xs` prints
followed by what handling `ys` prints from the state `xs` left behind. What is printed for a
list is the concatenation, task by task in queue order, of a lead (nothing, a carriage return
or the erase sequence) followed by the task's text, so every text appears once, in order, in
a segment of its own. The last part ties this to the step relation: the worker taking the queue
arm `xs.length` times on a queue `xs ++ rest` appends exactly that output to standard output
and leaves `rest` queued. -/
theorem C10_fifo (xs ys : List printTask) (p : Progress) :
    Progress.drain (xs ++ ys) p
        = ((Progress.drain ys (Progress.drain xs p).1).1,
            (Progress.drain xs p).2 ++ (Progress.drain ys (Progress.drain xs p).1).2)
    ∧ (∃ ls : List String, ls.length = xs.length
        ∧ (∀ l ∈ ls, l = "" ∨ l = "\r" ∨ l = eraseLine)
        ∧ (Progress.drain xs p).2
            = concatAll (List.zipWith (fun l t => l ++ taskText t) ls xs))
    ∧ ∀ (lib : PbLib) (isTerminal : Bool) (rest : List printTask) (out : String)
        (c : CallerPhase),
        sysRun lib isTerminal (List.replicate xs.length Event.workerTask)
            { p := { p with queue := xs ++ rest }, stdout := out,
              worker := WorkerPhase.selecting, caller := c }
          = some { p := { (Progress.drain xs p).1 with queue := rest },
                   stdout := out ++ (Progress.drain xs p).2,
                   worker := WorkerPhase.selecting, caller := c } :=
  ⟨drain_append xs ys p,
    ⟨leads p.barShown xs, leads_length _ _, leads_mem _ _, drain_snd xs p⟩,
    fun lib isTerminal rest out c => sysRun_workerTasks lib isTerminal xs rest p out c⟩

/-! ## Standard output is not a terminal -/

theorem applyCall_notTerminal (lib : PbLib) (c : Call) (p : Progress) (h : p.bar = none) :
    applyCall lib false c p
      = Except.ok { p with
          queue := p.queue ++ (printfTexts [c]).map
            (fun text => ({ code := codePrint, message := text } : printTask)) } := by
  obtain ⟨stop, stopped, queue, bar, shown⟩ := p
  simp only [] at h
  subst h
  cases c <;>
    simp [applyCall, Progress.Printf, Progress.InitBar, Progress.Write, Progress.AddBar,
      Progress.ShutdownBar, printfTexts, send]

theorem printfTexts_cons (c : Call) (cs : List Call) :
    printfTexts (c :: cs) = printfTexts [c] ++ printfTexts cs := by
  cases c <;> simp [printfTexts]

theorem runCalls_notTerminal (lib : PbLib) (calls : List Call) (p : Progress)
    (h : p.bar = none) :
    runCalls lib false calls p
      = Except.ok { p with
          queue := p.queue ++ (printfTexts calls).map
            (fun text => ({ code := codePrint, message := text } : printTask)) } := by
  induction calls generalizing p with
  | nil => simp [runCalls, printfTexts]
  | cons c cs ih =>
    rw [runCalls, applyCall_notTerminal lib c p h]
    simp only []
    rw [ih _ (by simpa using h), printfTexts_cons c cs]
    simp

theorem drain_prints (texts : List String) (p : Progress) (h : p.barShown = false) :
    Progress.drain
        (texts.map (fun text => ({ code := codePrint, message := text } : printTask))) p
      = (p, concatAll texts) := by
  induction texts with
  | nil => rfl
  | cons t ts ih =>
    simp only [List.map_cons, Progress.drain]
    have h1 : p.handleTask { code := codePrint, message := t } = (p, t) := by
      simp [Progress.handleTask, h]
    rw [h1]
    simp only []
    rw [ih]
    rfl

/-- C2: when standard output is not an interactive terminal, every sequence of handle calls
(Printf, InitBar, Write, AddBar, ShutdownBar) on a fresh handle returns normally and leaves the
bar absent and `barShown` false; the queue holds exactly one Print task per Printf call, in call
order, and nothing else; the worker handling that queue leaves the handle as it is (`barShown`
stays false) and prints exactly the concatenation of the Printf texts in call order, hence no
carriage return and no erase sequence of its own. As the sequence is arbitrary, this holds
after every call. -/
theorem C2_not_a_terminal (lib : PbLib) (calls : List Call) :
    ∃ p : Progress, runCalls lib false calls NewProgress = Except.ok p
      ∧ p.bar = none
      ∧ p.barShown = false
      ∧ p.queue = (printfTexts calls).map
          (fun text => ({ code := codePrint, message := text } : printTask))
      ∧ Progress.drain p.queue p = (p, concatAll (printfTexts calls)) := by
  refine ⟨_, runCalls_notTerminal lib calls NewProgress rfl, rfl, rfl, ?_, ?_⟩
  · simp [NewProgress]
  · have h := drain_prints (printfTexts calls)
      { NewProgress with
        queue := NewProgress.queue ++ (printfTexts calls).map
          (fun text => ({ code := codePrint, message := text } : printTask)) } rfl
    simpa [NewProgress] using h

/-! ## A second `InitBar` -/

theorem applyCall_keeps_bar (lib : PbLib) (isTerminal : Bool) (c : Call) (p p1 : Progress)
    (hc : c ≠ Call.ShutdownBar) (hbar : p.bar.isSome = true)
    (h : applyCall lib isTerminal c p = Except.ok p1) : p1.bar.isSome = true := by
  obtain ⟨stop, stopped, queue, bar, shown⟩ := p
  cases bar with
  | none => simp at hbar
  | some b =>
    cases c with
    | Printf text =>
      simp only [applyCall, Progress.Printf, Except.ok.injEq] at h
      subst h; rfl
    | InitBar count isBytes => simp [applyCall, Progress.InitBar] at h
    | Write bytes =>
      simp only [applyCall, Progress.Write, Except.ok.injEq] at h
      subst h; rfl
    | AddBar count =>
      simp only [applyCall, Progress.AddBar, Except.ok.injEq] at h
      subst h; rfl
    | ShutdownBar => exact absurd rfl hc

theorem runCalls_keeps_bar (lib : PbLib) (isTerminal : Bool) (cs : List Call)
    (p p2 : Progress) (hcs : Call.ShutdownBar ∉ cs) (hbar : p.bar.isSome = true)
    (h : runCalls lib isTerminal cs p = Except.ok p2) : p2.bar.isSome = true := by
  induction cs generalizing p with
  | nil =>
    simp only [runCalls, Except.ok.injEq] at h
    subst h; exact hbar
  | cons c cs ih =>
    rw [runCalls] at h
    cases hc : applyCall lib isTerminal c p with
    | error msg => rw [hc] at h; simp at h
    | ok p1 =>
      rw [hc] at h
      have hne : c ≠ Call.ShutdownBar := fun e => hcs (by simp [e])
      exact ih p1 (fun hm => hcs (List.mem_cons_of_mem _ hm))
        (applyCall_keeps_bar lib isTerminal c p p1 hne hbar hc) h

/-- C3 (as amended): when standard output is an interactive terminal, for every handle and all
arguments, once a call of `InitBar` has returned normally, a later `InitBar` with no
`ShutdownBar` in between (any number of `Printf`, `Write`, `AddBar` calls may lie between)
panics with "bar already initialized" and produces no handle state. When standard output is not
a terminal, `InitBar` on the same handle is a no-op that returns normally, so calling it twice
in a row does not panic and leaves the handle unchanged. -/
theorem C3_second_InitBar (lib : PbLib) (p p1 p2 : Progress) (count count2 : Int)
    (isBytes isBytes2 : Bool) (mid : List Call)
    (h1 : p.InitBar lib true count isBytes = Except.ok p1)
    (hmid : Call.ShutdownBar ∉ mid)
    (h2 : runCalls lib true mid p1 = Except.ok p2) :
    p2.InitBar lib true count2 isBytes2 = Except.error "bar already initialized"
    ∧ runCalls lib false [Call.InitBar count isBytes, Call.InitBar count2 isBytes2] p
        = Except.ok p := by
  have hnone : p.bar.isSome = false := by
    cases hb : p.bar.isSome
    · rfl
    · simp [Progress.InitBar, hb] at h1
  have hsome1 : p1.bar.isSome = true := by
    simp only [Progress.InitBar, hnone, Bool.false_eq_true, if_false, if_true,
      Except.ok.injEq] at h1
    subst h1; rfl
  have hsome2 := runCalls_keeps_bar lib true mid p1 p2 hmid hsome1 h2
  constructor
  · simp [Progress.InitBar, hsome2]
  · simp [runCalls, applyCall, Progress.InitBar, hnone]

/-- C3, witness: on a terminal, `InitBar`, then `Printf`, `Write` and `AddBar`, then a second
`InitBar` on a fresh handle. -/
theorem C3_second_InitBar_witness :
    (({ NewProgress with
          bar := some { current := 5, Total := 100, NotPrint := true, ShowSpeed := true,
                        Units := pbUnits.U_BYTES }
          queue := [{ code := codePrint, message := "go\n" }] } : Progress).InitBar
        quietPb true 7 false = Except.error "bar already initialized")
    ∧ runCalls quietPb false [Call.InitBar 100 true, Call.InitBar 7 false] NewProgress
        = Except.ok NewProgress :=
  C3_second_InitBar quietPb NewProgress _ _ 100 7 true false
    [Call.Printf "go\n", Call.Write [1, 2], Call.AddBar 3] rfl (by decide) rfl

/-- C3, counterexample: standard output is not a terminal; two `InitBar` calls in a row on a
fresh handle both return normally (no panic) and leave the handle as it was. -/
theorem C3_no_panic_when_not_a_terminal :
    runCalls quietPb false [Call.InitBar 100 true, Call.InitBar 100 true] NewProgress
      = Except.ok NewProgress := by
  rfl

/-! ## Who writes `barShown` -/

theorem applyCall_barShown (lib : PbLib) (isTerminal : Bool) (c : Call) (p p1 : Progress)
    (h : applyCall lib isTerminal c p = Except.ok p1) :
    p1.barShown =
      (match c with
        | Call.InitBar _ _ => if isTerminal then false else p.barShown
        | _ => p.barShown) := by
  obtain ⟨stop, stopped, queue, bar, shown⟩ := p
  cases c with
  | Printf text =>
    simp only [applyCall, Progress.Printf, Except.ok.injEq] at h
    subst h; rfl
  | InitBar count isBytes =>
    cases bar with
    | some b => simp [applyCall, Progress.InitBar] at h
    | none =>
      cases isTerminal <;>
        simp only [applyCall, Progress.InitBar, Option.isSome_none, Bool.false_eq_true,
          if_false, if_true, Except.ok.injEq] at h <;>
        subst h <;> rfl
  | Write bytes =>
    simp only [applyCall, Progress.Write, Except.ok.injEq] at h
    subst h
    cases bar <;> rfl
  | AddBar count =>
    simp only [applyCall, Progress.AddBar, Except.ok.injEq] at h
    subst h
    cases bar <;> rfl
  | ShutdownBar =>
    simp only [applyCall, Progress.ShutdownBar, Except.ok.injEq] at h
    subst h
    cases bar <;> rfl

theorem sysStep_barShown (lib : PbLib) (isTerminal : Bool) (e : Event) (s s1 : System)
    (h : sysStep lib isTerminal e s = some s1) (hne : s1.p.barShown ≠ s.p.barShown) :
    e = Event.workerTask
      ∨ (isTerminal = true ∧ ∃ count isBytes, e = Event.call (Call.InitBar count isBytes)) := by
  cases e with
  | workerTask => exact Or.inl rfl
  | call c =>
    right
    simp only [sysStep] at h
    cases hc : applyCall lib isTerminal c s.p with
    | error msg => rw [hc] at h; simp at h
    | ok p1 =>
      rw [hc] at h
      simp only [] at h
      split_ifs at h
      simp only [Option.some.injEq] at h
      subst h
      have hb := applyCall_barShown lib isTerminal c s.p p1 hc
      cases c with
      | InitBar count isBytes =>
        cases isTerminal with
        | true => exact ⟨rfl, count, isBytes, rfl⟩
        | false => exact absurd (by simpa using hb) hne
      | Printf text => exact absurd hb hne
      | Write bytes => exact absurd hb hne
      | AddBar count => exact absurd hb hne
      | ShutdownBar => exact absurd hb hne
  | start =>
    simp only [sysStep] at h
    split_ifs at h
    simp only [Option.some.injEq] at h
    subst h
    exact absurd rfl hne
  | tick frame =>
    simp only [sysStep] at h
    split_ifs at h
    simp only [Option.some.injEq] at h
    subst h
    exact absurd rfl hne
  | shutdownCall =>
    simp only [sysStep] at h
    split_ifs at h
    simp only [Option.some.injEq] at h
    subst h
    have hb := applyCall_barShown lib isTerminal Call.ShutdownBar s.p (s.p.ShutdownBar lib) rfl
    exact absurd hb hne
  | workerStop =>
    simp only [sysStep] at h
    split_ifs at h
    simp only [Option.some.injEq] at h
    subst h
    exact absurd rfl hne
  | shutdownDone =>
    simp only [sysStep] at h
    split_ifs at h
    simp only [Option.some.injEq] at h
    subst h
    exact absurd rfl hne

/-- C4 (as amended): `Printf`, `Write`, `AddBar` and `ShutdownBar` leave `barShown` exactly as
it was, for every handle state and every argument, and so does `InitBar` when standard output
is not a terminal; an `InitBar` that creates a bar (standard output is a terminal, no bar
active) sets `barShown` to false. In the step relation, a step that changes `barShown` is the
worker handling a task or such an `InitBar` on a terminal, and nothing else. -/
theorem C4_barShown_frame (lib : PbLib) (isTerminal : Bool) (c : Call) (p p1 : Progress)
    (h : applyCall lib isTerminal c p = Except.ok p1) :
    p1.barShown =
        (match c with
          | Call.InitBar _ _ => if isTerminal then false else p.barShown
          | _ => p.barShown)
    ∧ ∀ (e : Event) (s s1 : System), sysStep lib isTerminal e s = some s1 →
        s1.p.barShown ≠ s.p.barShown →
        e = Event.workerTask
          ∨ (isTerminal = true
              ∧ ∃ count isBytes, e = Event.call (Call.InitBar count isBytes)) :=
  ⟨applyCall_barShown lib isTerminal c p p1 h,
    fun e s s1 hs hne => sysStep_barShown lib isTerminal e s s1 hs hne⟩

/-- C4, witness: `ShutdownBar` on a handle with an active bar whose frame is on screen returns
a handle on which `barShown` is still true. -/
theorem C4_barShown_frame_witness :
    applyCall quietPb true Call.ShutdownBar
        { NewProgress with bar := some (pbNew 100), barShown := true }
      = Except.ok { NewProgress with
          queue := [{ code := codeHideProgress, message := "" }]
          barShown := true }
    ∧ ({ NewProgress with
          queue := [{ code := codeHideProgress, message := "" }]
          barShown := true } : Progress).barShown
        = ({ NewProgress with bar := some (pbNew 100), barShown := true } : Progress).barShown :=
  ⟨rfl, (C4_barShown_frame quietPb true Call.ShutdownBar
    { NewProgress with bar := some (pbNew 100), barShown := true } _ rfl).1⟩

/-- C4, counterexample: on a terminal, a bar is created, one frame is rendered and printed
(`barShown` is true), `ShutdownBar` retires the bar; in the state reached, the producer call
`InitBar` returns normally and has changed `barShown` from true to false. -/
theorem C4_InitBar_writes_barShown :
    ∃ s p1, sysRun quietPb true
        [Event.start, Event.call (Call.InitBar 100 true), Event.tick "[=>  ] 40%",
          Event.workerTask, Event.call Call.ShutdownBar] System.fresh = some s
      ∧ s.p.barShown = true
      ∧ applyCall quietPb true (Call.InitBar 100 true) s.p = Except.ok p1
      ∧ p1.barShown = false :=
  ⟨_, _, rfl, rfl, rfl, rfl⟩

/-! ## Shutdown -/

/-- C1 (the behaviour of the code): on a terminal, a bar is created, one frame is rendered and
printed, then `Shutdown` is called: its `ShutdownBar` enqueues the HideProgress task and it
offers the stop request. The worker's `select` now has both arms ready. In the first schedule
it takes the stop arm: `Shutdown` returns and the worker has exited while the HideProgress task
is still in the queue, the frame is still on screen and `barShown` is still true. In the second
schedule it takes the queue arm first: the frame is erased before `Shutdown` returns. So it is
not the case that the queue is empty whenever `Shutdown` has returned. -/
theorem C1_shutdown_races_the_queue :
    (∃ s, sysRun quietPb true
        [Event.start, Event.call (Call.InitBar 100 true), Event.tick "[=>  ] 40%",
          Event.workerTask, Event.shutdownCall, Event.workerStop, Event.shutdownDone]
        System.fresh = some s
      ∧ s.caller = CallerPhase.returned
      ∧ s.worker = WorkerPhase.exited
      ∧ s.p.queue = [{ code := codeHideProgress, message := "" }]
      ∧ s.p.barShown = true
      ∧ s.stdout = "\r[=>  ] 40%")
    ∧ (∃ s, sysRun quietPb true
        [Event.start, Event.call (Call.InitBar 100 true), Event.tick "[=>  ] 40%",
          Event.workerTask, Event.shutdownCall, Event.workerTask, Event.workerStop,
          Event.shutdownDone]
        System.fresh = some s
      ∧ s.caller = CallerPhase.returned
      ∧ s.worker = WorkerPhase.exited
      ∧ s.p.queue = []
      ∧ s.p.barShown = false
      ∧ s.stdout = "\r[=>  ] 40%\r\x1b[2K")
    ∧ ¬ ∀ (evs : List Event) (s : System),
        sysRun quietPb true evs System.fresh = some s →
        s.caller = CallerPhase.returned → s.p.queue = [] := by
  refine ⟨⟨_, rfl, rfl, rfl, rfl, rfl, rfl⟩, ⟨_, rfl, rfl, rfl, rfl, rfl, rfl⟩, ?_⟩
  intro hall
  have hq := hall
    [Event.start, Event.call (Call.InitBar 100 true), Event.tick "[=>  ] 40%",
      Event.workerTask, Event.shutdownCall, Event.workerStop, Event.shutdownDone]
    _ rfl rfl
  exact List.cons_ne_nil _ _ hq

/-! ## Interleavings when standard output is not a terminal -/

theorem concatAll_append (xs ys : List String) :
    concatAll (xs ++ ys) = concatAll xs ++ concatAll ys := by
  induction xs with
  | nil => simp [concatAll]
  | cons x xs ih => simp [concatAll, ih, String.append_assoc]

theorem printfTextsOf_cons (e : Event) (es : List Event) :
    printfTextsOf (e :: es) = printfTextsOf [e] ++ printfTextsOf es := by
  cases e with
  | call c => cases c <;> simp [printfTextsOf]
  | _ => simp [printfTextsOf]

theorem printfTextsOf_call (c : Call) : printfTextsOf [Event.call c] = printfTexts [c] := by
  cases c <;> rfl

theorem notTerminal_step (lib : PbLib) (e : Event) (s0 s : System)
    (hbar : s0.p.bar = none) (hshown : s0.p.barShown = false)
    (hq : ∀ t ∈ s0.p.queue, t.code = codePrint)
    (h : sysStep lib false e s0 = some s) :
    s.p.bar = none ∧ s.p.barShown = false ∧ (∀ t ∈ s.p.queue, t.code = codePrint)
      ∧ s.stdout ++ pendingText s
          = s0.stdout ++ pendingText s0 ++ concatAll (printfTextsOf [e]) := by
  obtain ⟨⟨stop, stopped, queue, bar, shown⟩, out, w, cl⟩ := s0
  simp only [] at hbar hshown hq
  subst hbar
  subst hshown
  cases e with
  | start =>
    simp only [sysStep] at h
    split_ifs at h
    simp only [Option.some.injEq] at h
    subst h
    exact ⟨rfl, rfl, hq, by simp [pendingText, printfTextsOf, concatAll]⟩
  | call c =>
    simp only [sysStep] at h
    rw [applyCall_notTerminal lib c _ rfl] at h
    simp only [] at h
    split_ifs at h
    simp only [Option.some.injEq] at h
    subst h
    refine ⟨rfl, rfl, ?_, ?_⟩
    · intro t ht
      simp only [List.mem_append, List.mem_map] at ht
      rcases ht with ht | ⟨text, _, rfl⟩
      · exact hq t ht
      · rfl
    · simp [pendingText, printfTextsOf_call, concatAll_append, String.append_assoc,
        Function.comp_def]
  | tick frame => simp [sysStep] at h
  | shutdownCall =>
    simp only [sysStep, Progress.ShutdownBar] at h
    split_ifs at h
    simp only [Option.some.injEq] at h
    subst h
    exact ⟨rfl, rfl, hq, by simp [pendingText, printfTextsOf, concatAll]⟩
  | workerTask =>
    simp only [sysStep] at h
    split_ifs at h
    cases queue with
    | nil => simp at h
    | cons t rest =>
      have ht : t.code = codePrint := hq t (by simp)
      obtain ⟨code, message⟩ := t
      simp only [] at ht
      subst ht
      simp only [Progress.handleTask, if_true, Bool.false_eq_true, if_false,
        Option.some.injEq] at h
      subst h
      refine ⟨rfl, rfl, fun t ht => hq t (by simp [ht]), ?_⟩
      simp [pendingText, printfTextsOf, concatAll, String.append_assoc]
  | workerStop =>
    simp only [sysStep] at h
    split_ifs at h
    simp only [Option.some.injEq] at h
    subst h
    exact ⟨rfl, rfl, hq, by simp [pendingText, printfTextsOf, concatAll]⟩
  | shutdownDone =>
    simp only [sysStep] at h
    split_ifs at h
    simp only [Option.some.injEq] at h
    subst h
    exact ⟨rfl, rfl, hq, by simp [pendingText, printfTextsOf, concatAll]⟩

theorem notTerminal_run (lib : PbLib) (evs : List Event) (s0 s : System)
    (hbar : s0.p.bar = none) (hshown : s0.p.barShown = false)
    (hq : ∀ t ∈ s0.p.queue, t.code = codePrint)
    (h : sysRun lib false evs s0 = some s) :
    s.p.bar = none ∧ s.p.barShown = false ∧ (∀ t ∈ s.p.queue, t.code = codePrint)
      ∧ s.stdout ++ pendingText s
          = s0.stdout ++ pendingText s0 ++ concatAll (printfTextsOf evs) := by
  induction evs generalizing s0 with
  | nil =>
    simp only [sysRun, Option.some.injEq] at h
    subst h
    exact ⟨hbar, hshown, hq, by simp [printfTextsOf, concatAll]⟩
  | cons e es ih =>
    rw [sysRun] at h
    cases hs : sysStep lib false e s0 with
    | none => rw [hs] at h; simp at h
    | some s1 =>
      rw [hs] at h
      obtain ⟨b1, sh1, q1, o1⟩ := notTerminal_step lib e s0 s1 hbar hshown hq hs
      obtain ⟨b2, sh2, q2, o2⟩ := ih s1 b1 sh1 q1 h
      refine ⟨b2, sh2, q2, ?_⟩
      rw [o2, o1, printfTextsOf_cons e es, concatAll_append, String.append_assoc]

/-- When standard output is not a terminal, in every state the coordinator reaches from a
fresh handle by any schedule of producer calls, worker steps and shutdown steps, the bar is
absent, `barShown` is false, the queue holds only Print tasks, every producer call returns
normally, and what has been printed followed by the texts still queued is exactly the
concatenation of the Printf texts in call order. -/
theorem notTerminal_interleaved (lib : PbLib) (evs : List Event) (s : System)
    (h : sysRun lib false evs System.fresh = some s) :
    s.p.bar = none
    ∧ s.p.barShown = false
    ∧ (∀ t ∈ s.p.queue, t.code = codePrint)
    ∧ (∀ c : Call, ∃ p1, applyCall lib false c s.p = Except.ok p1)
    ∧ s.stdout ++ pendingText s = concatAll (printfTextsOf evs) := by
  obtain ⟨hb, hs, hq, ho⟩ := notTerminal_run lib evs System.fresh s rfl rfl (by
    intro t ht
    simp [System.fresh, NewProgress] at ht) h
  refine ⟨hb, hs, hq, fun c => ⟨_, applyCall_notTerminal lib c s.p hb⟩, ?_⟩
  rw [ho]
  simp [System.fresh, NewProgress, pendingText, concatAll]

/-- A schedule with standard output not a terminal: two Printf calls around bar calls, the
worker interleaved, shutdown taken while the second text is still queued. -/
theorem notTerminal_interleaved_witness :
    sysRun finalFramePb false
        [Event.start, Event.call (Call.Printf "start\n"), Event.call (Call.InitBar 100 true),
          Event.workerTask, Event.call (Call.AddBar 50), Event.call (Call.Printf "done\n"),
          Event.shutdownCall, Event.workerStop, Event.shutdownDone]
        System.fresh
      = some { p := { NewProgress with queue := [{ code := codePrint, message := "done\n" }] },
               stdout := "start\n", worker := WorkerPhase.exited,
               caller := CallerPhase.returned }
    ∧ "start\n"
        ++ pendingText
            { p := { NewProgress with queue := [{ code := codePrint, message := "done\n" }] },
              stdout := "start\n", worker := WorkerPhase.exited,
              caller := CallerPhase.returned }
        = concatAll ["start\n", "done\n"] :=
  ⟨rfl, (notTerminal_interleaved finalFramePb
    [Event.start, Event.call (Call.Printf "start\n"), Event.call (Call.InitBar 100 true),
      Event.workerTask, Event.call (Call.AddBar 50), Event.call (Call.Printf "done\n"),
      Event.shutdownCall, Event.workerStop, Event.shutdownDone] _ rfl).2.2.2.2⟩

end Aptly
